import Mathlib

/-!
Verification development for the suspicious cognate-set detection pipeline
(setdist.py) and the memoizing languoid cache (glottocache.py).

Python dictionary rows are embedded as insertion-ordered association lists
from column names to a sum type of the Python values that occur in them.
Python exceptions that the source can raise (KeyError, AttributeError,
ValueError from max() on an empty collection) are modelled with Except;
an exception the source catches locally is not an Except error but part
of the normal control flow of the embedded function.

External collaborators are parameters:
  - the Glottolog store (pyglottolog languoid lookup) is a function from a
    glottocode to an optional languoid record;
  - geopy geodesic distance is a function from two coordinate pairs to an
    optional rational (Option.none models the ValueError the source catches
    and skips with a warning);
  - the shapely polygon centroid is a function from a coordinate list to an
    optional point (Option.none models the empty centroid whose x accessor
    raises the IndexError the source catches).
Distances and coordinates are rationals, the standard exact embedding of
the source's floating point numbers.
-/

/-- A Python value as it occurs in a row dictionary of setdist.py: a string
cell, a number, a boolean, None, or the list of ancestor names attached by
attach_glottolog_data. -/
inductive Value : Type where
  | str (s : String)
  | num (q : ℚ)
  | bool (b : Bool)
  | none
  | strList (l : List String)
deriving DecidableEq

/-- Python truthiness for the values above (empty string, zero, False, None
and the empty list are falsy). -/
def Value.truthy : Value → Bool
  | Value.str s => if s = "" then false else true
  | Value.num q => if q = 0 then false else true
  | Value.bool b => b
  | Value.none => false
  | Value.strList l => if l = [] then false else true

/-- A row dictionary: an insertion-ordered association list from column
names to values, with unique keys maintained by insertion. -/
abbrev Dict : Type := List (String × Value)

/-- First-match lookup in an association list (Python dict read). -/
def assocLookup {κ α : Type} [DecidableEq κ] : List (κ × α) → κ → Option α
  | [], _ => Option.none
  | (k', v) :: rest, k => if k' = k then Option.some v else assocLookup rest k

/-- Python dict write: update the value in place if the key exists,
otherwise append the new binding at the end (insertion order). -/
def insertAssoc {κ α : Type} [DecidableEq κ] : List (κ × α) → κ → α → List (κ × α)
  | [], k, v => [(k, v)]
  | (k', v') :: rest, k, v =>
    if k' = k then (k', v) :: rest else (k', v') :: insertAssoc rest k v

def dictGet (d : Dict) (k : String) : Option Value := assocLookup d k

def dictInsert (d : Dict) (k : String) (v : Value) : Dict := insertAssoc d k v

/-- Python subscript read row[k]: raises KeyError when the key is absent. -/
def dictGetE (d : Dict) (k : String) : Except String Value :=
  match dictGet d k with
  | Option.some v => Except.ok v
  | Option.none => Except.error ("KeyError: " ++ k)

/-- Lookup with a default, used in specification statements. -/
def dictGetD (d : Dict) (k : String) (v : Value) : Value := (dictGet d k).getD v

/-- Python dict merge d1 | d2: right operand wins on shared keys, its fresh
keys are appended in its own order. -/
def dictMerge (d1 d2 : Dict) : Dict :=
  d2.foldl (fun acc p => dictInsert acc p.1 p.2) d1

/-- One entry of a languoid's ancestor chain, exposing a display name and a
stable glottocode (the two attributes get_unique_microgroups selects with
getattr). -/
structure Ancestor where
  name : String
  glottocode : String
deriving DecidableEq

/-- A Glottolog languoid record as used by setdist.py: optional coordinates,
a category string, the ancestor chain, and the latitude/longitude pairs of
the descendants enumerated by iter_descendants. -/
structure Languoid where
  latitude : Option ℚ
  longitude : Option ℚ
  category : String
  ancestors : List Ancestor
  descendants : List (Option ℚ × Option ℚ)
deriving DecidableEq

/-- The fixed microgroup name list of setdist.py. -/
def MICROGROUPS : List String :=
  ["Batanic", "Northern Luzon", "Central Luzon", "Ati", "Kalamian", "Bilic",
   "South Mangyan", "Palawanic", "Central Philippine", "Manobo", "Danaw",
   "Subanen", "Sangiric", "Minahasan", "Gorontalo-Mongondow"]

/-- The fixed regional lingua-franca glottocode list of setdist.py. -/
def REGIONALS : List String :=
  ["taga1270", "ilok1237", "pamp1243", "biko1240", "cebu1242", "hili1240", "wara1300"]

/-- The glottocode list MGCODES of setdist.py (unused by the pipeline). -/
def MGCODES : List String :=
  ["bata1315", "nort3238", "nort2873", "sang1335", "bili1253", "cent2080",
   "kala1389", "mina1272", "cent2080", "atii1237", "lamp1241", "mano1276",
   "pala1354", "goro1257", "cent2246", "suba1253", "dana1253", "umir1236"]

/-- The observable behaviour of GlottoCache.get applied to a row value: a
falsy code (None or the empty string) yields no record, a non-empty string
code is resolved through the store g. The memoization theorem for the
stateful cache shows its value component coincides with such a pure
function of the store. -/
def lookupValue (g : String → Option Languoid) : Value → Option Languoid
  | Value.str s => if s = "" then Option.none else g s
  | _ => Option.none

/-- The mutable state of a GlottoCache: the in-memory code-to-record map
and the dirty flag gating save. Cached values are optional records because
the underlying store itself may yield None for an unknown code, and get
stores that result too. -/
structure GlottoCache where
  cache : List (String × Option Languoid)
  written : Bool
deriving DecidableEq

/-- GlottoCache.get from glottocache.py (the identical class in setdist.py
is the same function). The argument is an optional string so that both the
absent (None) and the empty-string code take the falsy early return. The
third component instruments the number of external store fetches performed
by the call (0 or 1); it is not part of the source state. -/
def GlottoCache.get (store : String → Option Languoid) (gc : GlottoCache)
    (glottocode : Option String) : Option Languoid × GlottoCache × Nat :=
  match glottocode with
  | Option.none => (Option.none, gc, 0)
  | Option.some code =>
    if code = "" then (Option.none, gc, 0)
    else
      match assocLookup gc.cache code with
      | Option.some lg => (lg, gc, 0)
      | Option.none =>
        (store code, { cache := insertAssoc gc.cache code (store code), written := true }, 1)

/-- One row built by csv.DictReader: header names are zipped with the field
cells; a short data line is padded with the None restval. (The restkey
collecting the cells of an overlong line under the key None is not used by
any consumer and is omitted.) -/
def zipRestval : List String → List String → List (String × Value)
  | [], _ => []
  | h :: hs, [] => (h, Value.none) :: zipRestval hs []
  | h :: hs, f :: fs => (h, Value.str f) :: zipRestval hs fs

def mkRow (header fields : List String) : Dict :=
  (zipRestval header fields).foldl (fun d p => dictInsert d p.1 p.2) []

/-- load_data from setdist.py: the parsed delimited table (first line the
header, the rest the data lines) is turned into one dictionary per data
line, keyed by column name. The function performs no validation. -/
def loadData : List (List String) → List Dict
  | [] => []
  | header :: rows => rows.map (mkRow header)

def optCoord : Option ℚ → Value
  | Option.some q => Value.num q
  | Option.none => Value.none

/-- The per-code dictionary attach_glottolog_data builds from a languoid:
its latitude, longitude, and the list of its ancestors' names. -/
def attachFields (lg : Languoid) : Dict :=
  [("Latitude", optCoord lg.latitude), ("Longitude", optCoord lg.longitude),
   ("Ancestors", Value.strList (lg.ancestors.map Ancestor.name))]

/-- The loop of attach_glottolog_data, carrying its local per-code cache.
A row whose GlottoCode is falsy is skipped; otherwise the attached fields
are computed once per code and merged onto the row. Reading the latitude of
a code the store cannot resolve raises AttributeError. -/
def attachGo (g : String → Option Languoid) (cache : List (Value × Dict)) :
    List Dict → Except String (List Dict)
  | [] => Except.ok []
  | row :: rest => do
    let code ← dictGetE row "GlottoCode"
    if code.truthy then
      match assocLookup cache code with
      | Option.some entry => do
        let out ← attachGo g cache rest
        pure (dictMerge row entry :: out)
      | Option.none =>
        match lookupValue g code with
        | Option.none => Except.error "AttributeError: NoneType has no attribute latitude"
        | Option.some lg => do
          let out ← attachGo g (insertAssoc cache code (attachFields lg)) rest
          pure (dictMerge row (attachFields lg) :: out)
    else attachGo g cache rest

/-- attach_glottolog_data from setdist.py. -/
def attachGlottologData (g : String → Option Languoid) (rows : List Dict) :
    Except String (List Dict) :=
  attachGo g [] rows

/-- The member coordinates interpolate_positions collects from a family
languoid: the (latitude, longitude) pairs of descendants with truthy
latitude (None and 0.0 are falsy). -/
def memberCoords (lg : Languoid) : List (ℚ × Option ℚ) :=
  lg.descendants.filterMap (fun m =>
    match m.1 with
    | Option.some q => if q = 0 then Option.none else Option.some (q, m.2)
    | Option.none => Option.none)

/-- The loop of interpolate_positions, carrying its local per-code centroid
cache. A row with latitude None whose code resolves to a Family languoid
gets the centroid of its member coordinates as interpolated position and
the flag InterpolatedDistance set to True; if the centroid is degenerate
(its x accessor raises IndexError) the source prints the row's
GlottologName and leaves the row unchanged; every other row gets the flag
set to False. -/
def interpGo (g : String → Option Languoid)
    (centroid : List (ℚ × Option ℚ) → Option (ℚ × ℚ))
    (cache : List (Value × Option (ℚ × ℚ))) : List Dict → Except String (List Dict)
  | [] => Except.ok []
  | row :: rest => do
    let code ← dictGetE row "GlottoCode"
    let latitude ← dictGetE row "Latitude"
    if latitude = Value.none then
      match lookupValue g code with
      | Option.none => Except.error "AttributeError: NoneType has no attribute category"
      | Option.some lg =>
        if lg.category = "Family" then
          let cpair :=
            match assocLookup cache code with
            | Option.some c => (c, cache)
            | Option.none =>
              (centroid (memberCoords lg), insertAssoc cache code (centroid (memberCoords lg)))
          match cpair.1 with
          | Option.some pt => do
            let out ← interpGo g centroid cpair.2 rest
            pure (dictInsert (dictInsert (dictInsert row "Latitude" (Value.num pt.1))
              "Longitude" (Value.num pt.2)) "InterpolatedDistance" (Value.bool true) :: out)
          | Option.none => do
            let _ ← dictGetE row "GlottologName"
            let out ← interpGo g centroid cpair.2 rest
            pure (row :: out)
        else do
          let out ← interpGo g centroid cache rest
          pure (dictInsert row "InterpolatedDistance" (Value.bool false) :: out)
    else do
      let out ← interpGo g centroid cache rest
      pure (dictInsert row "InterpolatedDistance" (Value.bool false) :: out)

/-- interpolate_positions from setdist.py. -/
def interpolatePositions (g : String → Option Languoid)
    (centroid : List (ℚ × Option ℚ) → Option (ℚ × ℚ)) (rows : List Dict) :
    Except String (List Dict) :=
  interpGo g centroid [] rows

/-- Append a row to the group of its key, preserving insertion order of
groups and of rows within a group (Python dict plus list append). -/
def addToGroup : List (Value × List Dict) → Value → Dict → List (Value × List Dict)
  | [], pf, row => [(pf, [row])]
  | (k, rs) :: rest, pf, row =>
    if k = pf then (k, rs ++ [row]) :: rest else (k, rs) :: addToGroup rest pf row

/-- groupby from setdist.py. The field parameter is accepted but, as in the
source, never consulted: every row is keyed by its ProtoForm value. -/
def groupby (rows : List Dict) (field : String) :
    Except String (List (Value × List Dict)) :=
  rows.foldlM (fun grouped row => do
    let protoform ← dictGetE row "ProtoForm"
    pure (addToGroup grouped protoform row)) []

/-- The coordinate pair compute_distances reads from a row (KeyError when a
column is absent). -/
def coordOfRow (row : Dict) : Except String (Value × Value) := do
  let la ← dictGetE row "Latitude"
  let lo ← dictGetE row "Longitude"
  pure (la, lo)

/-- compute_distances from setdist.py: for every ordered pair of rows'
coordinate pairs, when the two pairs differ, the geodesic distance is
computed; a pair on which the distance function raises (Option.none) is
skipped with a console warning; the results are aggregated into a set. -/
def computeDistances (dist : Value × Value → Value × Value → Option ℚ)
    (rows : List Dict) : Except String (Finset ℚ) := do
  let coords ← rows.mapM coordOfRow
  pure ((coords.flatMap (fun a =>
    coords.filterMap (fun b => if a = b then Option.none else dist a b))).toFinset)

/-- The row loop of get_unique_microgroups, returning the appended list of
matched group names before the final set aggregation. Reading the
ancestors of an unresolved code raises AttributeError. -/
def microgroupsLoop (g : String → Option Languoid) (groups : List String)
    (sel : Ancestor → String) : List Dict → Except String (List String)
  | [] => Except.ok []
  | row :: rest => do
    let code ← dictGetE row "GlottoCode"
    match lookupValue g code with
    | Option.none => Except.error "AttributeError: NoneType has no attribute ancestors"
    | Option.some lg =>
      let ancestors := lg.ancestors.map sel
      let restm ← microgroupsLoop g groups sel rest
      pure (groups.filter (fun grp => ancestors.contains grp) ++ restm)

/-- get_unique_microgroups from setdist.py; sel is the attribute selected
from each ancestor by getattr (name in the summarizer's call). -/
def getUniqueMicrogroups (g : String → Option Languoid) (groups : List String)
    (sel : Ancestor → String) (rows : List Dict) : Except String (Finset String) := do
  let l ← microgroupsLoop g groups sel rows
  pure l.toFinset

/-- Membership test of a row value in a list of language codes (Python
value-in-list; only an equal string matches). -/
def valueInList (v : Value) (ls : List String) : Bool :=
  match v with
  | Value.str s => ls.contains s
  | _ => false

/-- has_languages from setdist.py. -/
def hasLanguages (languages : List String) (rows : List Dict) : Except String Bool := do
  let codes ← rows.mapM (fun r => dictGetE r "GlottoCode")
  pure (codes.any (fun v => valueInList v languages))

/-- The summary dictionary built per proto-form by summarise_lexical_data,
with the fixed keys of the source's set_row literal. -/
structure SummaryRecord where
  protoform : Value
  reflexes : ℕ
  maxdist : ℚ
  mindist : ℚ
  meandist : ℚ
  interpolated : Bool
  microgroups : Finset String
  nmicrogroups : ℕ
  hasregionallang : Bool
deriving DecidableEq

/-- The body of summarise_lexical_data for one group: distances and unique
microgroups are computed, then the record literal is evaluated; max() of an
empty distance set raises ValueError, so an empty set is an error, reached
before the interpolation flags and regional codes are read. -/
def summariseGroup (dist : Value × Value → Value × Value → Option ℚ)
    (g : String → Option Languoid) (protoform : Value) (rows : List Dict) :
    Except String SummaryRecord := do
  let distances ← computeDistances dist rows
  let uniqueGroups ← getUniqueMicrogroups g MICROGROUPS Ancestor.name rows
  if h : distances.Nonempty then do
    let interpVals ← rows.mapM (fun r => dictGetE r "InterpolatedDistance")
    let hasreg ← hasLanguages REGIONALS rows
    pure { protoform := protoform
           reflexes := rows.length
           maxdist := distances.max' h
           mindist := distances.min' h
           meandist := (∑ d in distances, d) / (distances.card : ℚ)
           interpolated := interpVals.any Value.truthy
           microgroups := uniqueGroups
           nmicrogroups := uniqueGroups.card
           hasregionallang := hasreg }
  else Except.error "ValueError: max() arg is an empty sequence"

/-- summarise_lexical_data from setdist.py: groups are visited in order,
groups of size at most 1 are skipped, and each remaining group contributes
one summary record. -/
def summariseLexicalData (dist : Value × Value → Value × Value → Option ℚ)
    (g : String → Option Languoid) :
    List (Value × List Dict) → Except String (List SummaryRecord)
  | [] => Except.ok []
  | (pf, rows) :: rest =>
    if 1 < rows.length then do
      let r ← summariseGroup dist g pf rows
      let rs ← summariseLexicalData dist g rest
      pure (r :: rs)
    else summariseLexicalData dist g rest

/-- The matrix row build_microgroup_matrix creates from one summary record:
the proto-form key, the mean distance, then one 0/1 column per microgroup
name in the fixed MICROGROUPS order. -/
def matrixRow (row : SummaryRecord) : Dict :=
  MICROGROUPS.foldl
    (fun m mg => dictInsert m mg (Value.num (if mg ∈ row.microgroups then 1 else 0)))
    [("protoform", row.protoform), ("meandist", Value.num row.meandist)]

/-- build_microgroup_matrix from setdist.py. -/
def buildMicrogroupMatrix (rows : List SummaryRecord) : List Dict :=
  rows.map matrixRow

/-- The coordinate pairs of a row list as read by compute_distances, stated
with a total lookup (coincides with the embedded reader when the columns
are present). -/
def coordsOf (rows : List Dict) : List (Value × Value) :=
  rows.map (fun r => (dictGetD r "Latitude" Value.none, dictGetD r "Longitude" Value.none))

/-! Helper lemmas about the Except monad and association lists. -/

@[simp] lemma except_error_bind {ε α β : Type} (e : ε) (f : α → Except ε β) :
    (Except.error e : Except ε α) >>= f = Except.error e := rfl

@[simp] lemma except_ok_bind {ε α β : Type} (a : α) (f : α → Except ε β) :
    (Except.ok a : Except ε α) >>= f = f a := rfl

@[simp] lemma except_pure_eq_ok {ε α : Type} (a : α) :
    (pure a : Except ε α) = Except.ok a := rfl

lemma except_bind_ok_elim {ε α β : Type} {x : Except ε α} {f : α → Except ε β} {b : β}
    (h : x >>= f = Except.ok b) : ∃ a, x = Except.ok a ∧ f a = Except.ok b := by
  cases x with
  | error e => simp at h
  | ok a => exact ⟨a, rfl, by simpa using h⟩

section AssocLemmas

variable {κ α : Type} [DecidableEq κ]

lemma assocLookup_insertAssoc_self (l : List (κ × α)) (k : κ) (v : α) :
    assocLookup (insertAssoc l k v) k = Option.some v := by
  induction l with
  | nil => simp [insertAssoc, assocLookup]
  | cons p rest ih =>
    obtain ⟨k', v'⟩ := p
    by_cases h : k' = k
    · subst h; simp [insertAssoc, assocLookup]
    · simp [insertAssoc, assocLookup, h, ih]

lemma assocLookup_insertAssoc_ne (l : List (κ × α)) (k k' : κ) (v : α) (h : k' ≠ k) :
    assocLookup (insertAssoc l k' v) k = assocLookup l k := by
  induction l with
  | nil => simp [insertAssoc, assocLookup, h]
  | cons p rest ih =>
    obtain ⟨k'', v''⟩ := p
    by_cases h2 : k'' = k'
    · subst h2; simp [insertAssoc, assocLookup, h]
    · simp [insertAssoc, assocLookup, h2, ih]

lemma assocLookup_mem {l : List (κ × α)} {k : κ} {a : α}
    (h : assocLookup l k = Option.some a) : (k, a) ∈ l := by
  induction l with
  | nil => simp [assocLookup] at h
  | cons p rest ih =>
    obtain ⟨k', v'⟩ := p
    by_cases h2 : k' = k
    · subst h2
      simp [assocLookup] at h
      subst h
      exact List.mem_cons_self _ _
    · simp [assocLookup, h2] at h
      exact List.mem_cons_of_mem _ (ih h)

lemma mem_insertAssoc {l : List (κ × α)} {k : κ} {v : α} {p : κ × α}
    (h : p ∈ insertAssoc l k v) : p ∈ l ∨ p = (k, v) := by
  induction l with
  | nil => simp [insertAssoc] at h; right; exact h
  | cons q rest ih =>
    obtain ⟨k', v'⟩ := q
    by_cases h2 : k' = k
    · subst h2
      simp [insertAssoc] at h
      rcases h with h | h
      · right; simp [h]
      · left; exact List.mem_cons_of_mem _ h
    · simp [insertAssoc, h2] at h
      rcases h with h | h
      · left; simp [h]
      · rcases ih h with h3 | h3
        · left; exact List.mem_cons_of_mem _ h3
        · right; exact h3

lemma assocLookup_eq_none_iff (l : List (κ × α)) (k : κ) :
    assocLookup l k = Option.none ↔ k ∉ l.map Prod.fst := by
  induction l with
  | nil => simp [assocLookup]
  | cons p rest ih =>
    obtain ⟨k', v'⟩ := p
    by_cases h : k' = k
    · subst h; simp [assocLookup]
    · simp [assocLookup, h, ih, Ne.symm h]

lemma insertAssoc_of_not_mem {l : List (κ × α)} {k : κ} (v : α)
    (h : k ∉ l.map Prod.fst) : insertAssoc l k v = l ++ [(k, v)] := by
  induction l with
  | nil => simp [insertAssoc]
  | cons p rest ih =>
    obtain ⟨k', v'⟩ := p
    simp only [List.map_cons, List.mem_cons] at h
    push_neg at h
    simp [insertAssoc, Ne.symm h.1, ih h.2]

lemma assocLookup_append_of_not_mem {l1 : List (κ × α)} (l2 : List (κ × α)) {k : κ}
    (h : k ∉ l1.map Prod.fst) : assocLookup (l1 ++ l2) k = assocLookup l2 k := by
  induction l1 with
  | nil => simp
  | cons p rest ih =>
    obtain ⟨k', v'⟩ := p
    simp only [List.map_cons, List.mem_cons] at h
    push_neg at h
    simp [assocLookup, Ne.symm h.1, ih h.2]

lemma assocLookup_foldl_insert_of_not_mem (ps : List (κ × α)) (d : List (κ × α)) (k : κ)
    (h : k ∉ ps.map Prod.fst) :
    assocLookup (ps.foldl (fun acc p => insertAssoc acc p.1 p.2) d) k = assocLookup d k := by
  induction ps generalizing d with
  | nil => rfl
  | cons p ps ih =>
    simp only [List.map_cons, List.mem_cons] at h
    push_neg at h
    rw [List.foldl_cons, ih _ h.2, assocLookup_insertAssoc_ne _ _ _ _ h.1.symm]

lemma isSome_assocLookup_foldl_insert (ps : List (κ × α)) (d : List (κ × α)) (k : κ) :
    (assocLookup (ps.foldl (fun acc p => insertAssoc acc p.1 p.2) d) k).isSome
      ↔ k ∈ ps.map Prod.fst ∨ (assocLookup d k).isSome := by
  induction ps generalizing d with
  | nil => simp
  | cons p ps ih =>
    rw [List.foldl_cons, ih]
    by_cases h : p.1 = k
    · subst h
      simp [assocLookup_insertAssoc_self]
    · simp [assocLookup_insertAssoc_ne _ _ _ _ h, h, Ne.symm h]

end AssocLemmas

lemma dictGetE_ok {d : Dict} {k : String} {v : Value} (h : dictGet d k = Option.some v) :
    dictGetE d k = Except.ok v := by
  simp [dictGetE, h]

lemma dictGetE_ok_of_isSome {d : Dict} {k : String} (h : (dictGet d k).isSome) :
    dictGetE d k = Except.ok (dictGetD d k Value.none) := by
  obtain ⟨v, hv⟩ := Option.isSome_iff_exists.mp h
  simp [dictGetE, dictGetD, hv]

lemma foldl_insert_fun_spec {κ α : Type} [DecidableEq κ] (v : κ → α) :
    ∀ (ks : List κ) (d : List (κ × α)), ks.Nodup → (∀ k ∈ ks, k ∉ d.map Prod.fst) →
      (ks.foldl (fun m k => insertAssoc m k (v k)) d).map Prod.fst = d.map Prod.fst ++ ks ∧
      (∀ k ∈ ks, assocLookup (ks.foldl (fun m k => insertAssoc m k (v k)) d) k
        = Option.some (v k)) ∧
      (∀ k, k ∉ ks → assocLookup (ks.foldl (fun m k => insertAssoc m k (v k)) d) k
        = assocLookup d k) := by
  intro ks
  induction ks with
  | nil => exact fun d _ _ => ⟨by simp, by simp, fun k _ => rfl⟩
  | cons k0 ks ih =>
    intro d hnd hfresh
    have hk0d : k0 ∉ d.map Prod.fst := hfresh k0 (List.mem_cons_self _ _)
    have hd' : insertAssoc d k0 (v k0) = d ++ [(k0, v k0)] := insertAssoc_of_not_mem _ hk0d
    have hk0ks : k0 ∉ ks := (List.nodup_cons.mp hnd).1
    have hfresh' : ∀ k ∈ ks, k ∉ (insertAssoc d k0 (v k0)).map Prod.fst := by
      intro k hk
      rw [hd']
      simp only [List.map_append, List.map_cons, List.map_nil, List.mem_append,
        List.mem_singleton]
      push_neg
      refine ⟨hfresh k (List.mem_cons_of_mem _ hk), ?_⟩
      intro hEq
      exact hk0ks (hEq ▸ hk)
    obtain ⟨ihkeys, ihget, ihother⟩ := ih (insertAssoc d k0 (v k0)) (List.nodup_cons.mp hnd).2 hfresh'
    refine ⟨?_, ?_, ?_⟩
    · rw [List.foldl_cons, ihkeys, hd']
      simp
    · intro k hk
      rcases List.mem_cons.mp hk with h | h
      · subst h
        rw [List.foldl_cons, ihother k hk0ks, hd', assocLookup_append_of_not_mem _ hk0d]
        simp [assocLookup]
      · rw [List.foldl_cons]
        exact ihget k h
    · intro k hk
      simp only [List.mem_cons] at hk
      push_neg at hk
      rw [List.foldl_cons, ihother k hk.2,
        assocLookup_insertAssoc_ne _ _ _ _ (Ne.symm hk.1)]

/-- The distance set compute_distances builds from an explicit coordinate
list (the body of its product loop). -/
def pairDistances (dist : Value × Value → Value × Value → Option ℚ)
    (coords : List (Value × Value)) : Finset ℚ :=
  (coords.flatMap (fun a =>
    coords.filterMap (fun b => if a = b then Option.none else dist a b))).toFinset

lemma mem_pairDistances {dist : Value × Value → Value × Value → Option ℚ}
    {coords : List (Value × Value)} {d : ℚ} :
    d ∈ pairDistances dist coords
      ↔ ∃ a ∈ coords, ∃ b ∈ coords, a ≠ b ∧ dist a b = Option.some d := by
  simp only [pairDistances, List.mem_toFinset, List.mem_flatMap, List.mem_filterMap]
  constructor
  · rintro ⟨a, ha, b, hb, hif⟩
    by_cases hab : a = b
    · simp [hab] at hif
    · exact ⟨a, ha, b, hb, hab, by simpa [hab] using hif⟩
  · rintro ⟨a, ha, b, hb, hab, hd⟩
    exact ⟨a, ha, b, hb, by simpa [hab] using hd⟩

lemma computeDistances_eq (dist : Value × Value → Value × Value → Option ℚ)
    (rows : List Dict) {coords : List (Value × Value)}
    (h : rows.mapM coordOfRow = Except.ok coords) :
    computeDistances dist rows = Except.ok (pairDistances dist coords) := by
  unfold computeDistances
  rw [h]
  rfl

lemma computeDistances_ok_elim {dist : Value × Value → Value × Value → Option ℚ}
    {rows : List Dict} {s : Finset ℚ} (h : computeDistances dist rows = Except.ok s) :
    ∃ coords, rows.mapM coordOfRow = Except.ok coords ∧ s = pairDistances dist coords := by
  unfold computeDistances at h
  obtain ⟨coords, hc, hs⟩ := except_bind_ok_elim h
  refine ⟨coords, hc, ?_⟩
  simpa [pairDistances] using (Except.ok.inj hs).symm

lemma mapM_coordOfRow_ok (rows : List Dict)
    (h : ∀ r ∈ rows, (dictGet r "Latitude").isSome ∧ (dictGet r "Longitude").isSome) :
    rows.mapM coordOfRow = Except.ok (coordsOf rows) := by
  induction rows with
  | nil => rfl
  | cons r rest ih =>
    have h1 := (h r (List.mem_cons_self _ _)).1
    have h2 := (h r (List.mem_cons_self _ _)).2
    have hc : coordOfRow r
        = Except.ok (dictGetD r "Latitude" Value.none, dictGetD r "Longitude" Value.none) := by
      simp [coordOfRow, dictGetE_ok_of_isSome h1, dictGetE_ok_of_isSome h2]
    rw [List.mapM_cons, hc, ih (fun r hr => h r (List.mem_cons_of_mem _ hr))]
    simp [coordsOf]

lemma mapM_getE_ok (k : String) (rows : List Dict)
    (h : ∀ r ∈ rows, (dictGet r k).isSome) :
    ∃ vs, rows.mapM (fun r => dictGetE r k) = Except.ok vs := by
  induction rows with
  | nil => exact ⟨[], rfl⟩
  | cons r rest ih =>
    obtain ⟨vs, hvs⟩ := ih (fun r hr => h r (List.mem_cons_of_mem _ hr))
    refine ⟨dictGetD r k Value.none :: vs, ?_⟩
    rw [List.mapM_cons, dictGetE_ok_of_isSome (h r (List.mem_cons_self _ _)), hvs]
    simp

lemma microgroupsLoop_ok (g : String → Option Languoid) (groups : List String)
    (sel : Ancestor → String) (rows : List Dict)
    (hkey : ∀ r ∈ rows, (dictGet r "GlottoCode").isSome)
    (hres : ∀ r ∈ rows, (lookupValue g (dictGetD r "GlottoCode" Value.none)).isSome) :
    ∃ l, microgroupsLoop g groups sel rows = Except.ok l := by
  induction rows with
  | nil => exact ⟨[], rfl⟩
  | cons r rest ih =>
    obtain ⟨l, hl⟩ := ih (fun r hr => hkey r (List.mem_cons_of_mem _ hr))
      (fun r hr => hres r (List.mem_cons_of_mem _ hr))
    obtain ⟨lg, hlg⟩ := Option.isSome_iff_exists.mp (hres r (List.mem_cons_self _ _))
    refine ⟨groups.filter
      (fun grp => (lg.ancestors.map sel).contains grp) ++ l, ?_⟩
    rw [microgroupsLoop, dictGetE_ok_of_isSome (hkey r (List.mem_cons_self _ _))]
    simp [hlg, hl]

lemma microgroupsLoop_subset {g : String → Option Languoid} {groups : List String}
    {sel : Ancestor → String} {rows : List Dict} {l : List String}
    (h : microgroupsLoop g groups sel rows = Except.ok l) :
    ∀ x ∈ l, x ∈ groups := by
  induction rows generalizing l with
  | nil =>
    have : l = [] := (Except.ok.inj h).symm
    simp [this]
  | cons r rest ih =>
    rw [microgroupsLoop] at h
    obtain ⟨code, hcode, h2⟩ := except_bind_ok_elim h
    cases hlg : lookupValue g code with
    | none => rw [hlg] at h2; exact absurd h2 (by simp)
    | some lg =>
      rw [hlg] at h2
      obtain ⟨restm, hrest, h3⟩ := except_bind_ok_elim h2
      have hl : l = groups.filter (fun grp => (lg.ancestors.map sel).contains grp) ++ restm :=
        (Except.ok.inj h3).symm
      intro x hx
      rw [hl] at hx
      rcases List.mem_append.mp hx with hx | hx
      · exact List.mem_of_mem_filter hx
      · exact ih hrest x hx

lemma getUniqueMicrogroups_ok_elim {g : String → Option Languoid} {groups : List String}
    {sel : Ancestor → String} {rows : List Dict} {u : Finset String}
    (h : getUniqueMicrogroups g groups sel rows = Except.ok u) :
    ∃ ml, microgroupsLoop g groups sel rows = Except.ok ml ∧ u = ml.toFinset := by
  unfold getUniqueMicrogroups at h
  obtain ⟨ml, hml, h2⟩ := except_bind_ok_elim h
  exact ⟨ml, hml, (Except.ok.inj h2).symm⟩

lemma hasLanguages_ok (languages : List String) (rows : List Dict)
    (h : ∀ r ∈ rows, (dictGet r "GlottoCode").isSome) :
    ∃ b, hasLanguages languages rows = Except.ok b := by
  obtain ⟨vs, hvs⟩ := mapM_getE_ok "GlottoCode" rows h
  refine ⟨vs.any (fun v => valueInList v languages), ?_⟩
  unfold hasLanguages
  rw [hvs]
  rfl

lemma summariseGroup_ok (dist : Value × Value → Value × Value → Option ℚ)
    (g : String → Option Languoid) (pf : Value) (rows : List Dict)
    (hkeys : ∀ r ∈ rows, (dictGet r "GlottoCode").isSome ∧ (dictGet r "Latitude").isSome ∧
      (dictGet r "Longitude").isSome ∧ (dictGet r "InterpolatedDistance").isSome)
    (hres : ∀ r ∈ rows, (lookupValue g (dictGetD r "GlottoCode" Value.none)).isSome)
    (hne : ∃ a ∈ coordsOf rows, ∃ b ∈ coordsOf rows, a ≠ b ∧ (dist a b).isSome) :
    ∃ rec, summariseGroup dist g pf rows = Except.ok rec ∧ rec.protoform = pf := by
  have hcd : computeDistances dist rows = Except.ok (pairDistances dist (coordsOf rows)) :=
    computeDistances_eq dist rows
      (mapM_coordOfRow_ok rows (fun r hr => ⟨(hkeys r hr).2.1, (hkeys r hr).2.2.1⟩))
  obtain ⟨ml, hml⟩ := microgroupsLoop_ok g MICROGROUPS Ancestor.name rows
    (fun r hr => (hkeys r hr).1) hres
  have hgu : getUniqueMicrogroups g MICROGROUPS Ancestor.name rows
      = Except.ok ml.toFinset := by
    unfold getUniqueMicrogroups
    rw [hml]
    rfl
  have hnonempty : (pairDistances dist (coordsOf rows)).Nonempty := by
    obtain ⟨a, ha, b, hb, hab, hsome⟩ := hne
    obtain ⟨q, hq⟩ := Option.isSome_iff_exists.mp hsome
    exact ⟨q, mem_pairDistances.mpr ⟨a, ha, b, hb, hab, hq⟩⟩
  obtain ⟨ivs, hivs⟩ := mapM_getE_ok "InterpolatedDistance" rows
    (fun r hr => (hkeys r hr).2.2.2)
  obtain ⟨hb, hhb⟩ := hasLanguages_ok REGIONALS rows (fun r hr => (hkeys r hr).1)
  refine ⟨{ protoform := pf
            reflexes := rows.length
            maxdist := (pairDistances dist (coordsOf rows)).max' hnonempty
            mindist := (pairDistances dist (coordsOf rows)).min' hnonempty
            meandist := (∑ d in pairDistances dist (coordsOf rows), d)
              / ((pairDistances dist (coordsOf rows)).card : ℚ)
            interpolated := ivs.any Value.truthy
            microgroups := ml.toFinset
            nmicrogroups := ml.toFinset.card
            hasregionallang := hb }, ?_, rfl⟩
  unfold summariseGroup
  rw [hcd]
  simp only [except_ok_bind]
  rw [hgu]
  simp only [except_ok_bind]
  rw [dif_pos hnonempty, hivs]
  simp only [except_ok_bind]
  rw [hhb]
  simp only [except_ok_bind, except_pure_eq_ok]

lemma summariseGroup_ok_elim {dist : Value × Value → Value × Value → Option ℚ}
    {g : String → Option Languoid} {pf : Value} {rows : List Dict} {rec : SummaryRecord}
    (h : summariseGroup dist g pf rows = Except.ok rec) :
    ∃ coords ml, rows.mapM coordOfRow = Except.ok coords ∧
      microgroupsLoop g MICROGROUPS Ancestor.name rows = Except.ok ml ∧
      ∃ hne : (pairDistances dist coords).Nonempty,
        rec.protoform = pf ∧
        rec.reflexes = rows.length ∧
        rec.maxdist = (pairDistances dist coords).max' hne ∧
        rec.mindist = (pairDistances dist coords).min' hne ∧
        rec.meandist = (∑ d in pairDistances dist coords, d)
          / ((pairDistances dist coords).card : ℚ) ∧
        rec.microgroups = ml.toFinset ∧
        rec.nmicrogroups = ml.toFinset.card := by
  unfold summariseGroup at h
  obtain ⟨s, hs, h2⟩ := except_bind_ok_elim h
  obtain ⟨coords, hco, hseq⟩ := computeDistances_ok_elim hs
  subst hseq
  obtain ⟨u, hu, h3⟩ := except_bind_ok_elim h2
  obtain ⟨ml, hml, hueq⟩ := getUniqueMicrogroups_ok_elim hu
  subst hueq
  by_cases hne : (pairDistances dist coords).Nonempty
  · rw [dif_pos hne] at h3
    obtain ⟨ivs, hivs, h4⟩ := except_bind_ok_elim h3
    obtain ⟨hb, hhb, h5⟩ := except_bind_ok_elim h4
    rw [except_pure_eq_ok] at h5
    have hrec := (Except.ok.inj h5).symm
    subst hrec
    exact ⟨coords, ml, hco, hml, hne, rfl, rfl, rfl, rfl, rfl, rfl, rfl⟩
  · rw [dif_neg hne] at h3
    exact absurd h3 (by simp)

lemma summariseLexicalData_ok_elim {dist : Value × Value → Value × Value → Option ℚ}
    {g : String → Option Languoid} :
    ∀ {grouped : List (Value × List Dict)} {l : List SummaryRecord},
      summariseLexicalData dist g grouped = Except.ok l →
      ∀ rec ∈ l, ∃ pf rows, (pf, rows) ∈ grouped ∧ 1 < rows.length ∧
        summariseGroup dist g pf rows = Except.ok rec := by
  intro grouped
  induction grouped with
  | nil =>
    intro l h rec hrec
    have : l = [] := (Except.ok.inj h).symm
    subst this
    simp at hrec
  | cons p rest ih =>
    intro l h rec hrec
    obtain ⟨pf, rows⟩ := p
    by_cases hlen : 1 < rows.length
    · simp only [summariseLexicalData, if_pos hlen] at h
      obtain ⟨rec0, hrec0, h2⟩ := except_bind_ok_elim h
      obtain ⟨rs, hrs, h3⟩ := except_bind_ok_elim h2
      rw [except_pure_eq_ok] at h3
      have hl : l = rec0 :: rs := (Except.ok.inj h3).symm
      subst hl
      rcases List.mem_cons.mp hrec with hEq | hmem
      · subst hEq
        exact ⟨pf, rows, List.mem_cons_self _ _, hlen, hrec0⟩
      · obtain ⟨pf', rows', hmem', hlen', hok'⟩ := ih hrs rec hmem
        exact ⟨pf', rows', List.mem_cons_of_mem _ hmem', hlen', hok'⟩
    · simp only [summariseLexicalData, if_neg hlen] at h
      obtain ⟨pf', rows', hmem', hlen', hok'⟩ := ih h rec hrec
      exact ⟨pf', rows', List.mem_cons_of_mem _ hmem', hlen', hok'⟩

/-! Concrete fixtures used by counterexamples and witnesses. -/

/-- A language-level languoid with plain coordinates and no ancestors. -/
def lgPlain : Languoid :=
  { latitude := Option.some 10, longitude := Option.some 100, category := "Language",
    ancestors := [], descendants := [] }

/-- A store resolving every code to lgPlain. -/
def gPlain : String → Option Languoid := fun _ => Option.some lgPlain

/-- A language-level languoid whose ancestor chain contains the Batanic
microgroup. -/
def lgBatanic : Languoid :=
  { latitude := Option.some 20, longitude := Option.some 121, category := "Language",
    ancestors := [{ name := "Batanic", glottocode := "bata1315" }], descendants := [] }

/-- A store resolving every code to lgBatanic. -/
def gBatanic : String → Option Languoid := fun _ => Option.some lgBatanic

/-- A family-level languoid without coordinates or descendants. -/
def lgFamily : Languoid :=
  { latitude := Option.none, longitude := Option.none, category := "Family",
    ancestors := [], descendants := [] }

/-- An enriched reflex row at coordinates (10, 100). -/
def rowA1 : Dict :=
  [("GlottoCode", Value.str "taga1270"), ("Latitude", Value.num 10),
   ("Longitude", Value.num 100), ("InterpolatedDistance", Value.bool false)]

/-- An enriched reflex row at coordinates (11, 101). -/
def rowA2 : Dict :=
  [("GlottoCode", Value.str "ceb_x"), ("Latitude", Value.num 11),
   ("Longitude", Value.num 101), ("InterpolatedDistance", Value.bool false)]

/-- An enriched reflex row at coordinates (1, 2), used for degenerate
identical-coordinate groups. -/
def rowDup : Dict :=
  [("GlottoCode", Value.str "xxx"), ("Latitude", Value.num 1),
   ("Longitude", Value.num 2), ("InterpolatedDistance", Value.bool false)]

/-- An enriched reflex row at coordinates (3, 4), used for degenerate
identical-coordinate groups. -/
def rowDup2 : Dict :=
  [("GlottoCode", Value.str "yyy"), ("Latitude", Value.num 3),
   ("Longitude", Value.num 4), ("InterpolatedDistance", Value.bool false)]

/-- C3, counterexample: on a table whose header lacks the GlottoCode column
(and the other required columns), the loader does not fail before
processing; it returns the parsed rows, which simply lack the column. The
source performs no header validation and defines no FormatError. -/
theorem loadData_missing_column_no_failure :
    loadData [["ProtoForm", "Form"], ["p1", "x"]]
      = [[("ProtoForm", Value.str "p1"), ("Form", Value.str "x")]] ∧
    dictGet [("ProtoForm", Value.str "p1"), ("Form", Value.str "x")] "GlottoCode"
      = Option.none := by
  exact ⟨rfl, rfl⟩

lemma zipRestval_keys : ∀ (header fields : List String),
    (zipRestval header fields).map Prod.fst = header
  | [], _ => rfl
  | h :: hs, [] => by simp [zipRestval, zipRestval_keys hs []]
  | h :: hs, f :: fs => by simp [zipRestval, zipRestval_keys hs fs]

/-- C3, amended: for every input table the loader returns one record per
data line, keyed exactly by the header's column names, whether or not the
required columns (GlottoCode, Latitude/Longitude, ProtoForm) are present;
it never aborts on an incomplete header. -/
theorem loadData_rows_keyed_by_header (header : List String) (rows : List (List String)) :
    (loadData (header :: rows)).length = rows.length ∧
    ∀ d ∈ loadData (header :: rows), ∀ k, (dictGet d k).isSome ↔ k ∈ header := by
  constructor
  · simp [loadData]
  · intro d hd k
    simp only [loadData, List.mem_map] at hd
    obtain ⟨fields, _, hf⟩ := hd
    subst hf
    unfold mkRow dictGet
    have h := isSome_assocLookup_foldl_insert (zipRestval header fields) [] k
    simp only [dictInsert]
    rw [h, zipRestval_keys]
    simp [assocLookup]

/-- C4, code bug: groupby ignores its field argument and always groups by
the ProtoForm column, contradicting its own docstring. Called with the
field GlottoCode on two rows with distinct GlottoCode values but one shared
ProtoForm value, it returns a single ProtoForm-keyed group instead of two
GlottoCode-keyed groups. -/
theorem groupby_ignores_field_argument :
    groupby [[("ProtoForm", Value.str "a"), ("GlottoCode", Value.str "x")],
             [("ProtoForm", Value.str "a"), ("GlottoCode", Value.str "y")]] "GlottoCode"
      = Except.ok [(Value.str "a",
          [[("ProtoForm", Value.str "a"), ("GlottoCode", Value.str "x")],
           [("ProtoForm", Value.str "a"), ("GlottoCode", Value.str "y")]])] := by
  rfl

/-- C2, code bug: a group of two reflex rows sharing identical coordinates
yields an empty distance set, and the summarizer then raises ValueError
from max() on an empty collection instead of handling the degenerate group
as a reportable case. -/
theorem summarise_empty_distance_set_raises :
    summariseLexicalData (fun _ _ => Option.some 1) gPlain
      [(Value.str "*b", [rowDup, rowDup])]
      = Except.error "ValueError: max() arg is an empty sequence" := by
  rfl

/-- C1, counterexample: on a grouped input containing one group of two rows
at identical coordinates, the summarizer aborts with ValueError, so it does
not produce a record list with one SummaryRecord for that group of size 2. -/
theorem summarise_no_record_list_on_degenerate_group :
    ¬ ∃ l, summariseLexicalData (fun _ _ => Option.some 1) gPlain
      [(Value.str "*a", [rowDup2, rowDup2])] = Except.ok l := by
  rintro ⟨l, hl⟩
  have h : summariseLexicalData (fun _ _ => Option.some 1) gPlain
      [(Value.str "*a", [rowDup2, rowDup2])]
      = Except.error "ValueError: max() arg is an empty sequence" := rfl
  rw [h] at hl
  exact Except.noConfusion hl

/-- C8: GlottoCache.get returns the no-record marker on an absent or empty
code without touching the cache or the store; the first get of a new
non-empty code performs exactly one store fetch and records the result
under that code; any get of a code already in the in-memory map returns the
stored record with no fetch and no state change, which covers every
subsequent get for a code once fetched. -/
theorem glottoCache_get_memoizes (store : String → Option Languoid)
    (gc : GlottoCache) (code : String) (hc : code ≠ "")
    (hnew : assocLookup gc.cache code = Option.none) :
    GlottoCache.get store gc Option.none = (Option.none, gc, 0) ∧
    GlottoCache.get store gc (Option.some "") = (Option.none, gc, 0) ∧
    (GlottoCache.get store gc (Option.some code)).1 = store code ∧
    (GlottoCache.get store gc (Option.some code)).2.2 = 1 ∧
    assocLookup (GlottoCache.get store gc (Option.some code)).2.1.cache code
      = Option.some (store code) ∧
    (∀ gc' lg, assocLookup gc'.cache code = Option.some lg →
      GlottoCache.get store gc' (Option.some code) = (lg, gc', 0)) := by
  refine ⟨rfl, rfl, ?_, ?_, ?_, ?_⟩
  · simp [GlottoCache.get, hc, hnew]
  · simp [GlottoCache.get, hc, hnew]
  · simp [GlottoCache.get, hc, hnew, assocLookup_insertAssoc_self]
  · intro gc' lg hlg
    simp [GlottoCache.get, hc, hlg]

/-- C8, witness: the specification holds at an initially empty cache and
the code abc1234. -/
theorem glottoCache_get_memoizes_witness :
    GlottoCache.get gPlain { cache := [], written := false } Option.none
      = (Option.none, { cache := [], written := false }, 0) ∧
    GlottoCache.get gPlain { cache := [], written := false } (Option.some "")
      = (Option.none, { cache := [], written := false }, 0) ∧
    (GlottoCache.get gPlain { cache := [], written := false }
      (Option.some "abc1234")).1 = gPlain "abc1234" ∧
    (GlottoCache.get gPlain { cache := [], written := false }
      (Option.some "abc1234")).2.2 = 1 ∧
    assocLookup (GlottoCache.get gPlain { cache := [], written := false }
      (Option.some "abc1234")).2.1.cache "abc1234" = Option.some (gPlain "abc1234") ∧
    (∀ gc' lg, assocLookup gc'.cache "abc1234" = Option.some lg →
      GlottoCache.get gPlain gc' (Option.some "abc1234") = (lg, gc', 0)) :=
  glottoCache_get_memoizes gPlain { cache := [], written := false } "abc1234"
    (by decide) rfl

/-- C6: on rows carrying their coordinate columns, compute_distances
succeeds, and its result set contains d exactly when some ordered pair of
distinct coordinate points of the rows has distance d; consequently the set
is symmetric in the pair order (the same characterization holds with the
pair swapped), identical coordinate pairs never contribute, pairs on which
the distance function raises are merely absent rather than fatal, and the
result is a set of distinct values. -/
theorem computeDistances_pair_characterization
    (dist : Value × Value → Value × Value → Option ℚ) (rows : List Dict)
    (hlat : ∀ r ∈ rows, (dictGet r "Latitude").isSome)
    (hlon : ∀ r ∈ rows, (dictGet r "Longitude").isSome) :
    ∃ s, computeDistances dist rows = Except.ok s ∧
      (∀ d, d ∈ s ↔ ∃ a ∈ coordsOf rows, ∃ b ∈ coordsOf rows,
        a ≠ b ∧ dist a b = Option.some d) ∧
      (∀ d, d ∈ s ↔ ∃ a ∈ coordsOf rows, ∃ b ∈ coordsOf rows,
        a ≠ b ∧ dist b a = Option.some d) := by
  refine ⟨pairDistances dist (coordsOf rows),
    computeDistances_eq dist rows
      (mapM_coordOfRow_ok rows (fun r hr => ⟨hlat r hr, hlon r hr⟩)),
    fun d => mem_pairDistances, fun d => ?_⟩
  rw [mem_pairDistances]
  constructor
  · rintro ⟨a, ha, b, hb, hab, h⟩
    exact ⟨b, hb, a, ha, hab.symm, h⟩
  · rintro ⟨a, ha, b, hb, hab, h⟩
    exact ⟨b, hb, a, ha, hab.symm, h⟩

/-- C6, witness: the characterization at two concrete rows and a concrete
distance function that raises on one pair. -/
theorem computeDistances_pair_characterization_witness :
    ∃ s, computeDistances
        (fun a _ => if a = (Value.num 10, Value.num 100) then Option.none
          else Option.some 3) [rowA1, rowA2] = Except.ok s ∧
      (∀ d, d ∈ s ↔ ∃ a ∈ coordsOf [rowA1, rowA2], ∃ b ∈ coordsOf [rowA1, rowA2],
        a ≠ b ∧ (fun a _ => if a = (Value.num 10, Value.num 100) then Option.none
          else Option.some 3) a b = Option.some d) ∧
      (∀ d, d ∈ s ↔ ∃ a ∈ coordsOf [rowA1, rowA2], ∃ b ∈ coordsOf [rowA1, rowA2],
        a ≠ b ∧ (fun a _ => if a = (Value.num 10, Value.num 100) then Option.none
          else Option.some 3) b a = Option.some d) :=
  computeDistances_pair_characterization
    (fun a _ => if a = (Value.num 10, Value.num 100) then Option.none
      else Option.some 3) [rowA1, rowA2] (by decide) (by decide)

/-- Specification-side restatement of the Geo-Enricher row transform (spec
section 4.3): a row's resolved record contributes its coordinates and
ancestor names, merged onto the row. -/
def attachSpecRow (g : String → Option Languoid) (row : Dict) : Dict :=
  match lookupValue g (dictGetD row "GlottoCode" Value.none) with
  | Option.some lg => dictMerge row (attachFields lg)
  | Option.none => row

/-- Specification-side restatement of the Geo-Enricher contract (spec
section 4.3): rows with a falsy taxonomic code are dropped, all others are
emitted enriched, in order. -/
def attachGlottologSpec (g : String → Option Languoid) (rows : List Dict) : List Dict :=
  (rows.filter (fun r => (dictGetD r "GlottoCode" Value.none).truthy)).map (attachSpecRow g)

lemma dictGet_dictMerge_of_not_mem {d1 d2 : Dict} {k : String}
    (h : k ∉ d2.map Prod.fst) : dictGet (dictMerge d1 d2) k = dictGet d1 k := by
  have hh := assocLookup_foldl_insert_of_not_mem d2 d1 k h
  exact hh

lemma attachGo_ok (g : String → Option Languoid) :
    ∀ (rows : List Dict) (cache : List (Value × Dict)),
      (∀ p ∈ cache, ∃ lg, lookupValue g p.1 = Option.some lg ∧ p.2 = attachFields lg) →
      (∀ r ∈ rows, (dictGet r "GlottoCode").isSome) →
      (∀ r ∈ rows, (dictGetD r "GlottoCode" Value.none).truthy →
        (lookupValue g (dictGetD r "GlottoCode" Value.none)).isSome) →
      attachGo g cache rows = Except.ok (attachGlottologSpec g rows) := by
  intro rows
  induction rows with
  | nil => intro cache _ _ _; rfl
  | cons r rest ih =>
    intro cache hcache hkey hres
    obtain ⟨v, hv⟩ := Option.isSome_iff_exists.mp (hkey r (List.mem_cons_self _ _))
    have hgetD : dictGetD r "GlottoCode" Value.none = v := by simp [dictGetD, hv]
    have ihrest := fun cache' hcache' => ih cache' hcache'
      (fun r hr => hkey r (List.mem_cons_of_mem _ hr))
      (fun r hr => hres r (List.mem_cons_of_mem _ hr))
    by_cases ht : v.truthy
    · have hlgs : (lookupValue g v).isSome := by
        have hh := hres r (List.mem_cons_self _ _)
        rw [hgetD] at hh
        exact hh ht
      obtain ⟨lg, hlg⟩ := Option.isSome_iff_exists.mp hlgs
      have hspec : attachGlottologSpec g (r :: rest)
          = dictMerge r (attachFields lg) :: attachGlottologSpec g rest := by
        simp only [attachGlottologSpec, List.filter_cons, hgetD, ht, if_pos]
        simp [attachSpecRow, hgetD, hlg]
      cases hcl : assocLookup cache v with
      | some entry =>
        obtain ⟨lg', hlg', hentry⟩ := hcache (v, entry) (assocLookup_mem hcl)
        have hlg'' : lg' = lg := by
          rw [hlg] at hlg'
          exact (Option.some.inj hlg').symm
        subst hlg''
        subst hentry
        simp only [attachGo, dictGetE_ok hv, except_ok_bind, if_pos ht, hcl,
          ihrest cache hcache, except_ok_bind, hspec]
        rfl
      | none =>
        have hcache' : ∀ p ∈ insertAssoc cache v (attachFields lg),
            ∃ lg0, lookupValue g p.1 = Option.some lg0 ∧ p.2 = attachFields lg0 := by
          intro p hp
          rcases mem_insertAssoc hp with hp | hp
          · exact hcache p hp
          · subst hp
            exact ⟨lg, hlg, rfl⟩
        simp only [attachGo, dictGetE_ok hv, except_ok_bind, if_pos ht, hcl, hlg,
          ihrest _ hcache', except_ok_bind, hspec]
        rfl
    · have hspec : attachGlottologSpec g (r :: rest) = attachGlottologSpec g rest := by
        simp only [attachGlottologSpec, List.filter_cons, hgetD]
        simp [ht]
      simp only [attachGo, dictGetE_ok hv, except_ok_bind, if_neg ht,
        ihrest cache hcache, hspec]

/-- C7: every input row whose taxonomic code is falsy is dropped by
attach_glottolog_data, and every row with a truthy code is emitted, in
order, merged with the coordinates and ancestor names of its resolved
record; every emitted row still has a truthy code, so dropped rows cannot
reach any downstream group, summary or matrix row, which are all built from
this output. -/
theorem attachGlottologData_drops_empty_codes (g : String → Option Languoid)
    (rows : List Dict)
    (hkey : ∀ r ∈ rows, (dictGet r "GlottoCode").isSome)
    (hres : ∀ r ∈ rows, (dictGetD r "GlottoCode" Value.none).truthy →
      (lookupValue g (dictGetD r "GlottoCode" Value.none)).isSome) :
    attachGlottologData g rows = Except.ok (attachGlottologSpec g rows) ∧
    ∀ r' ∈ attachGlottologSpec g rows, (dictGetD r' "GlottoCode" Value.none).truthy := by
  constructor
  · exact attachGo_ok g rows [] (by simp) hkey hres
  · intro r' hr'
    simp only [attachGlottologSpec, List.mem_map, List.mem_filter] at hr'
    obtain ⟨r0, ⟨hr0, ht0⟩, hmap⟩ := hr'
    subst hmap
    unfold attachSpecRow
    cases hlv : lookupValue g (dictGetD r0 "GlottoCode" Value.none) with
    | none => exact ht0
    | some lg =>
      have hkeep : dictGet (dictMerge r0 (attachFields lg)) "GlottoCode"
          = dictGet r0 "GlottoCode" :=
        dictGet_dictMerge_of_not_mem (by simp [attachFields])
      simpa [dictGetD, hkeep] using ht0

/-- C7, witness: one row with an empty code and one with a resolvable code. -/
theorem attachGlottologData_drops_empty_codes_witness :
    attachGlottologData gPlain
        [[("GlottoCode", Value.str ""), ("ProtoForm", Value.str "p")], rowA1]
      = Except.ok (attachGlottologSpec gPlain
        [[("GlottoCode", Value.str ""), ("ProtoForm", Value.str "p")], rowA1]) ∧
    ∀ r' ∈ attachGlottologSpec gPlain
        [[("GlottoCode", Value.str ""), ("ProtoForm", Value.str "p")], rowA1],
      (dictGetD r' "GlottoCode" Value.none).truthy :=
  attachGlottologData_drops_empty_codes gPlain
    [[("GlottoCode", Value.str ""), ("ProtoForm", Value.str "p")], rowA1]
    (by decide) (by decide)

/-- C1, amended: for grouped inputs whose oversize groups carry the columns
the summarizer reads, have resolvable codes, and contain at least one pair
of rows at distinct coordinates with a defined distance (so no group's
distance set is empty), the summarizer succeeds and produces exactly one
SummaryRecord, in order, for each group with at least 2 rows, and none for
any smaller group. -/
theorem summariseLexicalData_one_record_per_large_group
    (dist : Value × Value → Value × Value → Option ℚ) (g : String → Option Languoid)
    (grouped : List (Value × List Dict))
    (hkeys : ∀ p ∈ grouped, 1 < p.2.length → ∀ r ∈ p.2,
      (dictGet r "GlottoCode").isSome ∧ (dictGet r "Latitude").isSome ∧
      (dictGet r "Longitude").isSome ∧ (dictGet r "InterpolatedDistance").isSome)
    (hres : ∀ p ∈ grouped, 1 < p.2.length → ∀ r ∈ p.2,
      (lookupValue g (dictGetD r "GlottoCode" Value.none)).isSome)
    (hne : ∀ p ∈ grouped, 1 < p.2.length →
      ∃ a ∈ coordsOf p.2, ∃ b ∈ coordsOf p.2, a ≠ b ∧ (dist a b).isSome) :
    ∃ l, summariseLexicalData dist g grouped = Except.ok l ∧
      l.map SummaryRecord.protoform
        = (grouped.filter (fun p => 1 < p.2.length)).map Prod.fst := by
  induction grouped with
  | nil => exact ⟨[], rfl, rfl⟩
  | cons p rest ih =>
    obtain ⟨l, hl, hmap⟩ := ih
      (fun q hq => hkeys q (List.mem_cons_of_mem _ hq))
      (fun q hq => hres q (List.mem_cons_of_mem _ hq))
      (fun q hq => hne q (List.mem_cons_of_mem _ hq))
    obtain ⟨pf, rows⟩ := p
    by_cases hlen : 1 < rows.length
    · obtain ⟨rec, hrec, hpf⟩ := summariseGroup_ok dist g pf rows
        (hkeys _ (List.mem_cons_self _ _) hlen)
        (hres _ (List.mem_cons_self _ _) hlen)
        (hne _ (List.mem_cons_self _ _) hlen)
      refine ⟨rec :: l, ?_, ?_⟩
      · simp only [summariseLexicalData, if_pos hlen, hrec, except_ok_bind, hl,
          except_pure_eq_ok]
      · simp [List.filter_cons, hlen, hmap, hpf]
    · refine ⟨l, ?_, ?_⟩
      · simp only [summariseLexicalData, if_neg hlen]
        exact hl
      · simp [List.filter_cons, hlen, hmap]

/-- C1, witness: a two-row group and an empty group, with a constant
distance function. -/
theorem summariseLexicalData_one_record_per_large_group_witness :
    ∃ l, summariseLexicalData (fun _ _ => Option.some 5) gPlain
        [(Value.str "*a", [rowA1, rowA2]), (Value.str "*b", [])] = Except.ok l ∧
      l.map SummaryRecord.protoform
        = ([(Value.str "*a", [rowA1, rowA2]), (Value.str "*b", [])].filter
            (fun p => 1 < p.2.length)).map Prod.fst :=
  summariseLexicalData_one_record_per_large_group (fun _ _ => Option.some 5) gPlain
    [(Value.str "*a", [rowA1, rowA2]), (Value.str "*b", [])]
    (by decide) (by decide) (by decide)

/-- C5: when the distance function only yields non-negative values (as the
geodesic distance in kilometers does), every SummaryRecord the summarizer
produces satisfies 0 ≤ mindist ≤ meandist ≤ maxdist. -/
theorem summaryRecord_distance_bounds
    (dist : Value × Value → Value × Value → Option ℚ) (g : String → Option Languoid)
    (grouped : List (Value × List Dict)) (l : List SummaryRecord) (rec : SummaryRecord)
    (hd : ∀ a b q, dist a b = Option.some q → 0 ≤ q)
    (hok : summariseLexicalData dist g grouped = Except.ok l)
    (hrec : rec ∈ l) :
    0 ≤ rec.mindist ∧ 0 ≤ rec.meandist ∧ 0 ≤ rec.maxdist ∧
    rec.mindist ≤ rec.meandist ∧ rec.meandist ≤ rec.maxdist := by
  obtain ⟨pf, rows, _, _, hg⟩ := summariseLexicalData_ok_elim hok rec hrec
  obtain ⟨coords, ml, _, _, hne, _, _, hmax, hmin, hmean, _, _⟩ :=
    summariseGroup_ok_elim hg
  have hpos : ∀ x ∈ pairDistances dist coords, 0 ≤ x := by
    intro x hx
    obtain ⟨a, _, b, _, _, hab⟩ := mem_pairDistances.mp hx
    exact hd a b x hab
  have hcard : (0 : ℚ) < ((pairDistances dist coords).card : ℚ) := by
    exact_mod_cast Finset.card_pos.mpr hne
  have hmin0 : 0 ≤ (pairDistances dist coords).min' hne :=
    hpos _ ((pairDistances dist coords).min'_mem hne)
  have hmax0 : 0 ≤ (pairDistances dist coords).max' hne :=
    hpos _ ((pairDistances dist coords).max'_mem hne)
  have hsum_le : (∑ d in pairDistances dist coords, d)
      ≤ (pairDistances dist coords).card • (pairDistances dist coords).max' hne :=
    Finset.sum_le_card_nsmul _ _ _ (fun x hx => (pairDistances dist coords).le_max' x hx)
  have hle_sum : (pairDistances dist coords).card • (pairDistances dist coords).min' hne
      ≤ ∑ d in pairDistances dist coords, d :=
    Finset.card_nsmul_le_sum _ _ _ (fun x hx => (pairDistances dist coords).min'_le x hx)
  rw [nsmul_eq_mul] at hsum_le hle_sum
  have hmean_le : (∑ d in pairDistances dist coords, d)
      / ((pairDistances dist coords).card : ℚ) ≤ (pairDistances dist coords).max' hne := by
    rw [div_le_iff₀ hcard]
    calc (∑ d in pairDistances dist coords, d)
        ≤ ((pairDistances dist coords).card : ℚ) * (pairDistances dist coords).max' hne :=
          hsum_le
      _ = (pairDistances dist coords).max' hne * ((pairDistances dist coords).card : ℚ) :=
          mul_comm _ _
  have hle_mean : (pairDistances dist coords).min' hne
      ≤ (∑ d in pairDistances dist coords, d) / ((pairDistances dist coords).card : ℚ) := by
    rw [le_div_iff₀ hcard]
    calc (pairDistances dist coords).min' hne * ((pairDistances dist coords).card : ℚ)
        = ((pairDistances dist coords).card : ℚ) * (pairDistances dist coords).min' hne :=
          mul_comm _ _
      _ ≤ ∑ d in pairDistances dist coords, d := hle_sum
  rw [hmin, hmax, hmean]
  exact ⟨hmin0, le_trans hmin0 hle_mean, hmax0, hle_mean, hmean_le⟩

/-- The summary record the summarizer produces for the single group *c of
rowA1 and rowA2 under the constant distance 7 and the store gPlain. -/
def recC5 : SummaryRecord :=
  { protoform := Value.str "*c", reflexes := 2, maxdist := 7, mindist := 7,
    meandist := 7, interpolated := false, microgroups := ∅, nmicrogroups := 0,
    hasregionallang := true }

instance exceptDecEq {ε α : Type} [DecidableEq ε] [DecidableEq α] :
    DecidableEq (Except ε α)
  | Except.error e, Except.error f =>
    if h : e = f then Decidable.isTrue (by rw [h])
    else Decidable.isFalse (fun hh => h (Except.error.inj hh))
  | Except.error _, Except.ok _ => Decidable.isFalse (fun hh => Except.noConfusion hh)
  | Except.ok _, Except.error _ => Decidable.isFalse (fun hh => Except.noConfusion hh)
  | Except.ok a, Except.ok b =>
    if h : a = b then Decidable.isTrue (by rw [h])
    else Decidable.isFalse (fun hh => h (Except.ok.inj hh))

lemma summariseLexicalData_recC5 :
    summariseLexicalData (fun _ _ => Option.some 7) gPlain
      [(Value.str "*c", [rowA1, rowA2])] = Except.ok [recC5] := by
  have hg : summariseGroup (fun _ _ => Option.some 7) gPlain (Value.str "*c")
      [rowA1, rowA2] = Except.ok recC5 := by
    have h1 : computeDistances (fun _ _ => Option.some 7) [rowA1, rowA2]
        = Except.ok ({7} : Finset ℚ) := rfl
    have h2 : getUniqueMicrogroups gPlain MICROGROUPS Ancestor.name [rowA1, rowA2]
        = Except.ok (∅ : Finset String) := rfl
    have hne : ({7} : Finset ℚ).Nonempty := ⟨7, by simp⟩
    have h3 : [rowA1, rowA2].mapM (fun r => dictGetE r "InterpolatedDistance")
        = Except.ok [Value.bool false, Value.bool false] := rfl
    have h4 : hasLanguages REGIONALS [rowA1, rowA2] = Except.ok true := rfl
    unfold summariseGroup
    rw [h1]
    simp only [except_ok_bind]
    rw [h2]
    simp only [except_ok_bind]
    rw [dif_pos hne, h3]
    simp only [except_ok_bind]
    rw [h4]
    simp only [except_ok_bind, except_pure_eq_ok]
    simp [recC5, Value.truthy]
  have hlen : 1 < ([rowA1, rowA2] : List Dict).length := by norm_num
  simp only [summariseLexicalData, if_pos hlen, hg, except_ok_bind, except_pure_eq_ok]

/-- C5, witness: the bounds at a concrete produced record. -/
theorem summaryRecord_distance_bounds_witness :
    0 ≤ recC5.mindist ∧ 0 ≤ recC5.meandist ∧ 0 ≤ recC5.maxdist ∧
    recC5.mindist ≤ recC5.meandist ∧ recC5.meandist ≤ recC5.maxdist :=
  summaryRecord_distance_bounds (fun _ _ => Option.some 7) gPlain
    [(Value.str "*c", [rowA1, rowA2])] [recC5] recC5
    (fun a b q h => by
      have h2 : (7 : ℚ) = q := Option.some.inj h
      rw [← h2]
      norm_num)
    summariseLexicalData_recC5
    (List.mem_cons_self _ _)

lemma matrixRow_spec (rec : SummaryRecord) :
    (matrixRow rec).map Prod.fst = "protoform" :: "meandist" :: MICROGROUPS ∧
    ∀ mg ∈ MICROGROUPS, dictGet (matrixRow rec) mg
      = Option.some (Value.num (if mg ∈ rec.microgroups then 1 else 0)) := by
  obtain ⟨hkeys, hget, _⟩ := foldl_insert_fun_spec
    (fun mg => Value.num (if mg ∈ rec.microgroups then 1 else 0)) MICROGROUPS
    [("protoform", rec.protoform), ("meandist", Value.num rec.meandist)]
    (by decide)
    (by
      simp only [List.map_cons, List.map_nil]
      decide)
  exact ⟨hkeys, hget⟩

set_option maxHeartbeats 1000000 in
/-- C9: every SummaryRecord the summarizer produces yields, through the
Matrix Builder, a matrix row whose number of 1-valued microgroup columns
equals the record's nmicrogroups, with the microgroup columns always in the
fixed MICROGROUPS order after the protoform and meandist columns. -/
theorem matrixRow_ones_count
    (dist : Value × Value → Value × Value → Option ℚ) (g : String → Option Languoid)
    (grouped : List (Value × List Dict)) (l : List SummaryRecord) (rec : SummaryRecord)
    (hok : summariseLexicalData dist g grouped = Except.ok l)
    (hrec : rec ∈ l) :
    matrixRow rec ∈ buildMicrogroupMatrix l ∧
    MICROGROUPS.countP
      (fun mg => decide (dictGet (matrixRow rec) mg = Option.some (Value.num 1)))
      = rec.nmicrogroups ∧
    (matrixRow rec).map Prod.fst = "protoform" :: "meandist" :: MICROGROUPS := by
  obtain ⟨pf, rows, _, _, hg⟩ := summariseLexicalData_ok_elim hok rec hrec
  obtain ⟨coords, ml, _, hml, _, _, _, _, _, _, hmg, hn⟩ := summariseGroup_ok_elim hg
  have hsub : ∀ x ∈ rec.microgroups, x ∈ MICROGROUPS := by
    intro x hx
    rw [hmg] at hx
    exact microgroupsLoop_subset hml x (List.mem_toFinset.mp hx)
  have hnd : MICROGROUPS.Nodup := by decide
  have hcongr : MICROGROUPS.countP
      (fun mg => decide (dictGet (matrixRow rec) mg = Option.some (Value.num 1)))
      = MICROGROUPS.countP (fun mg => decide (mg ∈ rec.microgroups)) := by
    apply List.countP_congr
    intro mg hmgm
    simp only [decide_eq_true_eq]
    rw [(matrixRow_spec rec).2 mg hmgm]
    by_cases hm : mg ∈ rec.microgroups
    · simp [hm]
    · simp [hm]
  have hfin : MICROGROUPS.countP (fun mg => decide (mg ∈ rec.microgroups))
      = rec.microgroups.card := by
    rw [List.countP_eq_length_filter,
      ← List.toFinset_card_of_nodup (hnd.filter _)]
    apply congrArg Finset.card
    ext x
    simp only [List.mem_toFinset, List.mem_filter, decide_eq_true_eq]
    exact ⟨fun h => h.2, fun h => ⟨hsub x h, h⟩⟩
  refine ⟨List.mem_map_of_mem matrixRow hrec, ?_, (matrixRow_spec rec).1⟩
  rw [hcongr, hfin, hn, hmg]

/-- An enriched reflex row at coordinates (20, 121) whose code resolves to
a languoid with the Batanic microgroup in its ancestor chain. -/
def rowB1 : Dict :=
  [("GlottoCode", Value.str "xb1"), ("Latitude", Value.num 20),
   ("Longitude", Value.num 121), ("InterpolatedDistance", Value.bool false)]

/-- An enriched reflex row at coordinates (21, 122) whose code resolves to
a languoid with the Batanic microgroup in its ancestor chain. -/
def rowB2 : Dict :=
  [("GlottoCode", Value.str "xb2"), ("Latitude", Value.num 21),
   ("Longitude", Value.num 122), ("InterpolatedDistance", Value.bool false)]

/-- The summary record the summarizer produces for the single group *d of
rowB1 and rowB2 under the constant distance 5 and the store gBatanic. -/
def recC9 : SummaryRecord :=
  { protoform := Value.str "*d", reflexes := 2, maxdist := 5, mindist := 5,
    meandist := 5, interpolated := false, microgroups := {"Batanic"}, nmicrogroups := 1,
    hasregionallang := false }

set_option maxHeartbeats 1000000 in
lemma summariseLexicalData_recC9 :
    summariseLexicalData (fun _ _ => Option.some 5) gBatanic
      [(Value.str "*d", [rowB1, rowB2])] = Except.ok [recC9] := by
  have hg : summariseGroup (fun _ _ => Option.some 5) gBatanic (Value.str "*d")
      [rowB1, rowB2] = Except.ok recC9 := by
    have h1 : computeDistances (fun _ _ => Option.some 5) [rowB1, rowB2]
        = Except.ok ({5} : Finset ℚ) := rfl
    have h2 : getUniqueMicrogroups gBatanic MICROGROUPS Ancestor.name [rowB1, rowB2]
        = Except.ok ({"Batanic"} : Finset String) := rfl
    have hne : ({5} : Finset ℚ).Nonempty := ⟨5, by simp⟩
    have h3 : [rowB1, rowB2].mapM (fun r => dictGetE r "InterpolatedDistance")
        = Except.ok [Value.bool false, Value.bool false] := rfl
    have h4 : hasLanguages REGIONALS [rowB1, rowB2] = Except.ok false := rfl
    unfold summariseGroup
    rw [h1]
    simp only [except_ok_bind]
    rw [h2]
    simp only [except_ok_bind]
    rw [dif_pos hne, h3]
    simp only [except_ok_bind]
    rw [h4]
    simp only [except_ok_bind, except_pure_eq_ok]
    simp [recC9, Value.truthy]
  have hlen : 1 < ([rowB1, rowB2] : List Dict).length := by norm_num
  simp only [summariseLexicalData, if_pos hlen, hg, except_ok_bind, except_pure_eq_ok]

/-- C9, witness: the count and column order at a concrete produced record
with one matched microgroup. -/
theorem matrixRow_ones_count_witness :
    matrixRow recC9 ∈ buildMicrogroupMatrix [recC9] ∧
    MICROGROUPS.countP
      (fun mg => decide (dictGet (matrixRow recC9) mg = Option.some (Value.num 1)))
      = recC9.nmicrogroups ∧
    (matrixRow recC9).map Prod.fst = "protoform" :: "meandist" :: MICROGROUPS :=
  matrixRow_ones_count (fun _ _ => Option.some 5) gBatanic
    [(Value.str "*d", [rowB1, rowB2])] [recC9] recC9
    summariseLexicalData_recC9 (List.mem_cons_self _ _)

lemma dictGet_dictInsert_self (d : Dict) (k : String) (v : Value) :
    dictGet (dictInsert d k v) k = Option.some v :=
  assocLookup_insertAssoc_self d k v

lemma dictGet_dictInsert_ne (d : Dict) (k k' : String) (v : Value) (h : k' ≠ k) :
    dictGet (dictInsert d k' v) k = dictGet d k :=
  assocLookup_insertAssoc_ne d k k' v h

/-- The observable per-row transform of interpolate_positions: a row with
latitude None whose code resolves to a Family languoid with a defined
member centroid gets interpolated coordinates and the flag True; with a
degenerate centroid it is returned unchanged; every other resolved row gets
the flag False. Derived characterization used to state the loop's result. -/
def interpRowSpec (g : String → Option Languoid)
    (centroid : List (ℚ × Option ℚ) → Option (ℚ × ℚ)) (row : Dict) : Dict :=
  if dictGet row "Latitude" = Option.some Value.none then
    match lookupValue g (dictGetD row "GlottoCode" Value.none) with
    | Option.some lg =>
      if lg.category = "Family" then
        match centroid (memberCoords lg) with
        | Option.some pt =>
          dictInsert (dictInsert (dictInsert row "Latitude" (Value.num pt.1))
            "Longitude" (Value.num pt.2)) "InterpolatedDistance" (Value.bool true)
        | Option.none => row
      else dictInsert row "InterpolatedDistance" (Value.bool false)
    | Option.none => row
  else dictInsert row "InterpolatedDistance" (Value.bool false)

lemma interpGo_ok (g : String → Option Languoid)
    (centroid : List (ℚ × Option ℚ) → Option (ℚ × ℚ)) :
    ∀ (rows : List Dict) (cache : List (Value × Option (ℚ × ℚ))),
      (∀ p ∈ cache, ∃ lg, lookupValue g p.1 = Option.some lg ∧
        p.2 = centroid (memberCoords lg)) →
      (∀ r ∈ rows, (dictGet r "GlottoCode").isSome) →
      (∀ r ∈ rows, (dictGet r "Latitude").isSome) →
      (∀ r ∈ rows, dictGet r "Latitude" = Option.some Value.none →
        (lookupValue g (dictGetD r "GlottoCode" Value.none)).isSome) →
      (∀ r ∈ rows, ∀ lg, dictGet r "Latitude" = Option.some Value.none →
        lookupValue g (dictGetD r "GlottoCode" Value.none) = Option.some lg →
        lg.category = "Family" → (centroid (memberCoords lg)).isSome) →
      interpGo g centroid cache rows = Except.ok (rows.map (interpRowSpec g centroid)) := by
  intro rows
  induction rows with
  | nil => intro cache _ _ _ _ _; rfl
  | cons r rest ih =>
    intro cache hcache hcode hlat hres hcent
    have ihrest := fun cache' hcache' => ih cache' hcache'
      (fun x hx => hcode x (List.mem_cons_of_mem _ hx))
      (fun x hx => hlat x (List.mem_cons_of_mem _ hx))
      (fun x hx => hres x (List.mem_cons_of_mem _ hx))
      (fun x hx => hcent x (List.mem_cons_of_mem _ hx))
    obtain ⟨cv, hcv⟩ := Option.isSome_iff_exists.mp (hcode r (List.mem_cons_self _ _))
    obtain ⟨lv, hlv⟩ := Option.isSome_iff_exists.mp (hlat r (List.mem_cons_self _ _))
    have hgetD : dictGetD r "GlottoCode" Value.none = cv := by simp [dictGetD, hcv]
    by_cases hl : lv = Value.none
    · subst hl
      have hrl : dictGet r "Latitude" = Option.some Value.none := hlv
      have hlgs : (lookupValue g cv).isSome := by
        have hh := hres r (List.mem_cons_self _ _) hrl
        rw [hgetD] at hh
        exact hh
      obtain ⟨lg, hlg⟩ := Option.isSome_iff_exists.mp hlgs
      by_cases hf : lg.category = "Family"
      · have hcs : (centroid (memberCoords lg)).isSome := by
          have hh := hcent r (List.mem_cons_self _ _) lg hrl
          rw [hgetD] at hh
          exact hh hlg hf
        obtain ⟨pt, hpt⟩ := Option.isSome_iff_exists.mp hcs
        have hspec : interpRowSpec g centroid r
            = dictInsert (dictInsert (dictInsert r "Latitude" (Value.num pt.1))
              "Longitude" (Value.num pt.2)) "InterpolatedDistance" (Value.bool true) := by
          unfold interpRowSpec
          rw [if_pos hrl, hgetD, hlg]
          simp only [if_pos hf, hpt]
        cases hcl : assocLookup cache cv with
        | some c =>
          obtain ⟨lg', hlg', hc⟩ := hcache (cv, c) (assocLookup_mem hcl)
          have hlg'' : lg' = lg := by
            rw [hlg] at hlg'
            exact (Option.some.inj hlg').symm
          have hc2 : c = centroid (memberCoords lg) := by
            have hc3 : c = centroid (memberCoords lg') := hc
            rw [hlg''] at hc3
            exact hc3
          have hcpt : c = Option.some pt := by rw [hc2, hpt]
          subst hcpt
          simp only [interpGo, dictGetE_ok hcv, dictGetE_ok hlv, except_ok_bind]
          try rw [if_pos rfl]
          simp only [hlg, if_pos hf, hcl, ihrest cache hcache, except_ok_bind,
            except_pure_eq_ok, List.map_cons, hspec]
          simp
        | none =>
          have hcache' : ∀ p ∈ insertAssoc cache cv (Option.some pt),
              ∃ lg0, lookupValue g p.1 = Option.some lg0 ∧
                p.2 = centroid (memberCoords lg0) := by
            intro p hp
            rcases mem_insertAssoc hp with hp | hp
            · exact hcache p hp
            · subst hp
              exact ⟨lg, hlg, hpt.symm⟩
          simp only [interpGo, dictGetE_ok hcv, dictGetE_ok hlv, except_ok_bind]
          try rw [if_pos rfl]
          simp only [hlg, if_pos hf, hcl, hpt, ihrest _ hcache', except_ok_bind,
            except_pure_eq_ok, List.map_cons, hspec]
          simp
      · have hspec : interpRowSpec g centroid r
            = dictInsert r "InterpolatedDistance" (Value.bool false) := by
          unfold interpRowSpec
          rw [if_pos hrl, hgetD, hlg]
          simp only [if_neg hf]
        simp only [interpGo, dictGetE_ok hcv, dictGetE_ok hlv, except_ok_bind]
        try rw [if_pos rfl]
        simp only [hlg, if_neg hf, ihrest cache hcache, except_ok_bind,
          except_pure_eq_ok, List.map_cons, hspec]
        simp
    · have hrl : ¬ dictGet r "Latitude" = Option.some Value.none := by
        rw [hlv]
        intro hh
        exact hl (Option.some.inj hh)
      have hspec : interpRowSpec g centroid r
          = dictInsert r "InterpolatedDistance" (Value.bool false) := by
        unfold interpRowSpec
        rw [if_neg hrl]
      simp only [interpGo, dictGetE_ok hcv, dictGetE_ok hlv, except_ok_bind]
      rw [if_neg hl]
      simp only [ihrest cache hcache, except_ok_bind, except_pure_eq_ok,
        List.map_cons, hspec]

/-- C10, amended: on rows carrying GlottoCode and Latitude columns, with
codes that resolve for the rows that need a record, and no row hitting the
degenerate-centroid path, interpolate_positions succeeds with exactly one
output row per input row in order; every output row has the
InterpolatedDistance flag defined as a boolean that is true exactly when
the row's latitude was None and its record has category Family, and all
columns other than Latitude, Longitude and InterpolatedDistance are
unchanged. -/
theorem interpolatePositions_flag_defined (g : String → Option Languoid)
    (centroid : List (ℚ × Option ℚ) → Option (ℚ × ℚ)) (rows : List Dict)
    (hcode : ∀ r ∈ rows, (dictGet r "GlottoCode").isSome)
    (hlat : ∀ r ∈ rows, (dictGet r "Latitude").isSome)
    (hres : ∀ r ∈ rows, dictGet r "Latitude" = Option.some Value.none →
      (lookupValue g (dictGetD r "GlottoCode" Value.none)).isSome)
    (hcent : ∀ r ∈ rows, ∀ lg, dictGet r "Latitude" = Option.some Value.none →
      lookupValue g (dictGetD r "GlottoCode" Value.none) = Option.some lg →
      lg.category = "Family" → (centroid (memberCoords lg)).isSome) :
    ∃ out, interpolatePositions g centroid rows = Except.ok out ∧
      out.length = rows.length ∧
      ∀ (i : ℕ) (r : Dict), rows[i]? = Option.some r → ∃ o, out[i]? = Option.some o ∧
        (∃ b : Bool, dictGet o "InterpolatedDistance" = Option.some (Value.bool b) ∧
          (b = true ↔ (dictGet r "Latitude" = Option.some Value.none ∧
            ∃ lg, lookupValue g (dictGetD r "GlottoCode" Value.none) = Option.some lg ∧
              lg.category = "Family"))) ∧
        (∀ k, k ≠ "Latitude" → k ≠ "Longitude" → k ≠ "InterpolatedDistance" →
          dictGet o k = dictGet r k) := by
  refine ⟨rows.map (interpRowSpec g centroid),
    interpGo_ok g centroid rows [] (by simp) hcode hlat hres hcent, by simp, ?_⟩
  intro i r hir
  have hrmem : r ∈ rows := List.getElem?_mem hir
  refine ⟨interpRowSpec g centroid r, by rw [List.getElem?_map, hir]; rfl, ?_, ?_⟩
  · by_cases hl : dictGet r "Latitude" = Option.some Value.none
    · obtain ⟨lg, hlg⟩ := Option.isSome_iff_exists.mp (hres r hrmem hl)
      by_cases hf : lg.category = "Family"
      · obtain ⟨pt, hpt⟩ := Option.isSome_iff_exists.mp (hcent r hrmem lg hl hlg hf)
        refine ⟨true, ?_, ?_⟩
        · unfold interpRowSpec
          rw [if_pos hl, hlg]
          simp only [if_pos hf, hpt]
          exact dictGet_dictInsert_self _ _ _
        · simp only [true_iff]
          exact ⟨hl, lg, hlg, hf⟩
      · refine ⟨false, ?_, ?_⟩
        · unfold interpRowSpec
          rw [if_pos hl, hlg]
          simp only [if_neg hf]
          exact dictGet_dictInsert_self _ _ _
        · simp only [Bool.false_eq_true, false_iff]
          rintro ⟨_, lg', hlg', hf'⟩
          rw [hlg] at hlg'
          exact hf ((Option.some.inj hlg') ▸ hf')
    · refine ⟨false, ?_, ?_⟩
      · unfold interpRowSpec
        rw [if_neg hl]
        exact dictGet_dictInsert_self _ _ _
      · simp only [Bool.false_eq_true, false_iff]
        rintro ⟨hl', _⟩
        exact hl hl'
  · intro k h1 h2 h3
    by_cases hl : dictGet r "Latitude" = Option.some Value.none
    · cases hlg : lookupValue g (dictGetD r "GlottoCode" Value.none) with
      | none =>
        unfold interpRowSpec
        rw [if_pos hl, hlg]
      | some lg =>
        by_cases hf : lg.category = "Family"
        · obtain ⟨pt, hpt⟩ := Option.isSome_iff_exists.mp (hcent r hrmem lg hl hlg hf)
          unfold interpRowSpec
          rw [if_pos hl, hlg]
          simp only [if_pos hf, hpt]
          rw [dictGet_dictInsert_ne _ _ _ _ (Ne.symm h3),
            dictGet_dictInsert_ne _ _ _ _ (Ne.symm h2),
            dictGet_dictInsert_ne _ _ _ _ (Ne.symm h1)]
        · unfold interpRowSpec
          rw [if_pos hl, hlg]
          simp only [if_neg hf]
          rw [dictGet_dictInsert_ne _ _ _ _ (Ne.symm h3)]
    · unfold interpRowSpec
      rw [if_neg hl]
      rw [dictGet_dictInsert_ne _ _ _ _ (Ne.symm h3)]

/-- A family-category row with latitude None and a GlottologName column,
whose code resolves to a family record without usable descendant
coordinates. -/
def rowFam : Dict :=
  [("GlottoCode", Value.str "fam1"), ("Latitude", Value.none),
   ("GlottologName", Value.str "SomeFamily")]

/-- C10, counterexample: a row whose code resolves to a Family record with
latitude None but a degenerate centroid is returned unchanged, without the
InterpolatedDistance flag, even though every code resolves to a record; a
downstream read of the flag on this row would raise KeyError. -/
theorem interpolatePositions_flag_missing_on_degenerate_centroid :
    interpolatePositions (fun _ => Option.some lgFamily) (fun _ => Option.none) [rowFam]
      = Except.ok [rowFam] ∧
    dictGet rowFam "InterpolatedDistance" = Option.none := by
  exact ⟨rfl, rfl⟩

/-- A family-category languoid with three descendant coordinates. -/
def lgFamDesc : Languoid :=
  { latitude := Option.none, longitude := Option.none, category := "Family",
    ancestors := [],
    descendants := [(Option.some 5, Option.some 6), (Option.some 7, Option.some 8),
      (Option.some 9, Option.some 10)] }

/-- A reflex row with latitude None whose code resolves to lgFamDesc. -/
def rowFamX : Dict :=
  [("GlottoCode", Value.str "famx"), ("Latitude", Value.none),
   ("Longitude", Value.none)]

/-- C10, witness: the amended statement at one interpolated family row and
one ordinary row, under a total centroid function. -/
theorem interpolatePositions_flag_defined_witness :
    ∃ out, interpolatePositions (fun _ => Option.some lgFamDesc)
        (fun _ => Option.some (3, 4)) [rowFamX, rowA1] = Except.ok out ∧
      out.length = ([rowFamX, rowA1] : List Dict).length ∧
      ∀ (i : ℕ) (r : Dict), ([rowFamX, rowA1] : List Dict)[i]? = Option.some r →
        ∃ o, out[i]? = Option.some o ∧
          (∃ b : Bool, dictGet o "InterpolatedDistance" = Option.some (Value.bool b) ∧
            (b = true ↔ (dictGet r "Latitude" = Option.some Value.none ∧
              ∃ lg, lookupValue (fun _ => Option.some lgFamDesc)
                  (dictGetD r "GlottoCode" Value.none) = Option.some lg ∧
                lg.category = "Family"))) ∧
          (∀ k, k ≠ "Latitude" → k ≠ "Longitude" → k ≠ "InterpolatedDistance" →
            dictGet o k = dictGet r k) :=
  interpolatePositions_flag_defined (fun _ => Option.some lgFamDesc)
    (fun _ => Option.some (3, 4)) [rowFamX, rowA1]
    (by decide) (by decide) (by decide)
    (fun _ _ _ _ _ _ => rfl)
